import Mathlib

/-!
Shallow embedding of the crix exchange client (`src/crix/async_client.py`).

The client is a thin HTTP binding: it signs request payloads with
HMAC-SHA256, caches the market list, resolves a working symbol set, and
aggregates per-symbol responses into one lazily produced sequence.  The
network is modelled by oracles (functions from request parameters to the
decoded response fields), and each async generator is modelled by the
finite trace of events it produces: market fetches, per-symbol requests,
and yielded entities.  Laziness is recovered from the trace by cutting it
at the n-th yielded entity, which is exactly the set of events a consumer
that stops after n entities observes.

Machine words are `Nat` with explicit reduction mod 2^32 where the SHA-256
compression function overflows.
-/

namespace Crix

/-! ## Bytes, SHA-256 and HMAC.

`__signed_request` calls `hmac.new(secret, digestmod='SHA256')` from the
Python standard library; the signer below is the RFC 2104 / FIPS 180-4
construction it implements, over byte lists (`List Nat`, each < 256). -/

/-- Reduce a `Nat` to a 32-bit word. -/
def w32 (x : Nat) : Nat := x % 4294967296

/-- Rotate a 32-bit word right by `n` bits. -/
def rotr32 (n x : Nat) : Nat := w32 ((x >>> n) ||| (x <<< (32 - n)))

/-- The 64 SHA-256 round constants (FIPS 180-4 section 4.2.2), written in
decimal. -/
def sha256K : List Nat :=
  [1116352408, 1899447441, 3049323471, 3921009573, 961987163,
   1508970993, 2453635748, 2870763221, 3624381080, 310598401,
   607225278, 1426881987, 1925078388, 2162078206, 2614888103,
   3248222580, 3835390401, 4022224774, 264347078, 604807628,
   770255983, 1249150122, 1555081692, 1996064986, 2554220882,
   2821834349, 2952996808, 3210313671, 3336571891, 3584528711,
   113926993, 338241895, 666307205, 773529912, 1294757372,
   1396182291, 1695183700, 1986661051, 2177026350, 2456956037,
   2730485921, 2820302411, 3259730800, 3345764771, 3516065817,
   3600352804, 4094571909, 275423344, 430227734, 506948616,
   659060556, 883997877, 958139571, 1322822218, 1537002063,
   1747873779, 1955562222, 2024104815, 2227730452, 2361852424,
   2428436474, 2756734187, 3204031479, 3329325298]

/-- The initial SHA-256 hash state (FIPS 180-4 section 5.3.3), in decimal. -/
def sha256H0 : List Nat :=
  [1779033703, 3144134277, 1013904242, 2773480762, 1359893119,
   2600822924, 528734635, 1541459225]

/-- Big-endian bytes of `n`, `k` bytes wide. -/
def toBytesBE (k : Nat) (n : Nat) : List Nat :=
  (List.range k).map (fun i => (n >>> (8 * (k - 1 - i))) % 256)

/-- SHA-256 padding: append `0x80`, zero bytes to 56 mod 64, then the
bit length as a 64-bit big-endian integer. -/
def padMessage (msg : List Nat) : List Nat :=
  let L := msg.length
  let z := (119 - L % 64) % 64
  msg ++ [0x80] ++ List.replicate z 0 ++ toBytesBE 8 (L * 8)

/-- Split into 64-byte chunks; the fuel argument makes the recursion
structural (it starts at the list length, an upper bound on the chunk count). -/
def chunksAux : Nat → List Nat → List (List Nat)
  | 0, _ => []
  | _, [] => []
  | fuel + 1, xs => xs.take 64 :: chunksAux fuel (xs.drop 64)

/-- Split a byte list into 64-byte blocks. -/
def chunks64 (xs : List Nat) : List (List Nat) := chunksAux xs.length xs

/-- The sixteen 32-bit big-endian words of one 64-byte block. -/
def blockWords (block : List Nat) : List Nat :=
  (List.range 16).map (fun i =>
    block.getD (4 * i) 0 * 16777216 + block.getD (4 * i + 1) 0 * 65536 +
    block.getD (4 * i + 2) 0 * 256 + block.getD (4 * i + 3) 0)

/-- One step of the SHA-256 message schedule: append word
`w[t-16] + s0(w[t-15]) + w[t-7] + s1(w[t-2])` where `t` is the current length. -/
def scheduleStep (ws : List Nat) : List Nat :=
  let t := ws.length
  let x15 := ws.getD (t - 15) 0
  let x2 := ws.getD (t - 2) 0
  let s0 := rotr32 7 x15 ^^^ rotr32 18 x15 ^^^ (x15 >>> 3)
  let s1 := rotr32 17 x2 ^^^ rotr32 19 x2 ^^^ (x2 >>> 10)
  ws ++ [w32 (ws.getD (t - 16) 0 + s0 + ws.getD (t - 7) 0 + s1)]

/-- Extend the 16 block words to the full 64-word message schedule. -/
def schedule (ws : List Nat) : List Nat :=
  (List.range 48).foldl (fun acc _ => scheduleStep acc) ws

/-- One SHA-256 compression round on the 8-word working state. -/
def compressRound (ww : List Nat) (t : Nat) (st : List Nat) : List Nat :=
  let a := st.getD 0 0
  let b := st.getD 1 0
  let c := st.getD 2 0
  let d := st.getD 3 0
  let e := st.getD 4 0
  let f := st.getD 5 0
  let g := st.getD 6 0
  let h := st.getD 7 0
  let bigS1 := rotr32 6 e ^^^ rotr32 11 e ^^^ rotr32 25 e
  let ch := (e &&& f) ^^^ ((e ^^^ 0xffffffff) &&& g)
  let temp1 := w32 (h + bigS1 + ch + sha256K.getD t 0 + ww.getD t 0)
  let bigS0 := rotr32 2 a ^^^ rotr32 13 a ^^^ rotr32 22 a
  let maj := (a &&& b) ^^^ (a &&& c) ^^^ (b &&& c)
  let temp2 := w32 (bigS0 + maj)
  [w32 (temp1 + temp2), a, b, c, w32 (d + temp1), e, f, g]

/-- Compress one 64-byte block into the hash state. -/
def compressBlock (hh : List Nat) (block : List Nat) : List Nat :=
  let ww := schedule (blockWords block)
  let st := (List.range 64).foldl (fun st t => compressRound ww t st) hh
  (List.range 8).map (fun i => w32 (hh.getD i 0 + st.getD i 0))

/-- SHA-256 digest (32 bytes) of a byte list. -/
def sha256 (msg : List Nat) : List Nat :=
  let hh := (chunks64 (padMessage msg)).foldl compressBlock sha256H0
  (hh.map (toBytesBE 4)).flatten

/-- Lowercase hexadecimal digit. -/
def hexDigitChar (n : Nat) : Char := "0123456789abcdef".toList.getD n 'x'

/-- Lowercase hexadecimal rendering of a byte list, as `hexdigest()` returns. -/
def bytesToHex (bs : List Nat) : String :=
  String.join (bs.map (fun b => String.mk [hexDigitChar (b / 16), hexDigitChar (b % 16)]))

/-- HMAC-SHA256 (RFC 2104, block size 64): hash the key if longer than a
block, zero-pad it, and nest the two keyed hashes. -/
def hmacSha256 (key msg : List Nat) : List Nat :=
  let k0 := if 64 < key.length then sha256 key else key
  let kp := k0 ++ List.replicate (64 - k0.length) 0
  sha256 ((kp.map (fun b => b ^^^ 0x5c)) ++ sha256 ((kp.map (fun b => b ^^^ 0x36)) ++ msg))

/-- Hex HMAC-SHA256 digest, as `hmac.new(secret, digestmod='SHA256')` +
`update(payload)` + `hexdigest()` compute in `__signed_request`. -/
def hmacSha256Hex (key msg : List Nat) : String := bytesToHex (hmacSha256 key msg)

/-- Byte encoding of a string, as `str.encode()`; the payloads and secrets
the client produces are ASCII, where UTF-8 bytes coincide with code points. -/
def strToBytes (s : String) : List Nat := s.toList.map Char.toNat

/-! ## JSON values and serialization. -/

/-- A JSON value; object fields keep insertion order, as Python dicts do. -/
inductive Json : Type where
  | null : Json
  | num (n : Int) : Json
  | str (s : String) : Json
  | arr (xs : List Json) : Json
  | obj (fields : List (String × Json)) : Json

/-- Escape one character inside a JSON string, as `json.dumps` does for the
characters the client ever serializes. -/
def escapeJsonChar (c : Char) : String :=
  if c = '"' then "\\\""
  else if c = '\\' then "\\\\"
  else if c = '\n' then "\\n"
  else if c = '\t' then "\\t"
  else if c = '\r' then "\\r"
  else String.mk [c]

/-- Serialize a JSON string literal with quotes. -/
def dumpsStr (s : String) : String :=
  "\"" ++ String.join (s.toList.map escapeJsonChar) ++ "\""

mutual

/-- Serialize a JSON value the way `json.dumps` does with default
separators: items joined by a comma-space, keys and values by colon-space. -/
def Json.dumps : Json → String
  | Json.null => "null"
  | Json.num n => toString n
  | Json.str s => dumpsStr s
  | Json.arr xs => "[" ++ dumpsItems xs ++ "]"
  | Json.obj fs => "\x7b" ++ dumpsFields fs ++ "\x7d"

/-- Serialize array items, comma-space separated. -/
def dumpsItems : List Json → String
  | [] => ""
  | [x] => Json.dumps x
  | x :: y :: xs => Json.dumps x ++ ", " ++ dumpsItems (y :: xs)

/-- Serialize object fields, comma-space separated, colon-space between
key and value. -/
def dumpsFields : List (String × Json) → String
  | [] => ""
  | [(k, v)] => dumpsStr k ++ ": " ++ Json.dumps v
  | (k, v) :: g :: fs => dumpsStr k ++ ": " ++ Json.dumps v ++ ", " ++ dumpsFields (g :: fs)

end

/-! ## Wire entities.

`models.py` and `client.py` are not under `src/`; the spec treats entity
construction as pure mapping functions `from_wire(dict) -> Entity` that are
immutable after construction, so each entity wraps its decoded wire value. -/

/-- Modelled from the spec: `Order` lives in `models.py`, which is not under
`src/`; the spec treats `Order.from_json` as a pure wire decoder, so the
entity wraps the decoded JSON record. -/
structure Order : Type where
  raw : Json

/-- Modelled from the spec: the pure `Order` wire decoder. -/
def Order.from_json (data : Json) : Order := ⟨data⟩

/-- Modelled from the spec: `Trade` lives in `models.py`, not under `src/`. -/
structure Trade : Type where
  raw : Json

/-- Modelled from the spec: the pure `Trade` wire decoder. -/
def Trade.from_json (data : Json) : Trade := ⟨data⟩

/-- Modelled from the spec: `Account` lives in `models.py`, not under `src/`. -/
structure Account : Type where
  raw : Json

/-- Modelled from the spec: the pure `Account` wire decoder. -/
def Account.from_json (data : Json) : Account := ⟨data⟩

/-- Modelled from the spec: `Ticker` lives in `models.py`, not under `src/`. -/
structure Ticker : Type where
  raw : Json

/-- Modelled from the spec: the pure `Ticker` wire decoder. -/
def Ticker.from_json (data : Json) : Ticker := ⟨data⟩

/-- Modelled from the spec: `NewOrder` lives in `models.py`, not under
`src/`; `create_order` only calls its `to_json` serializer. -/
structure NewOrder : Type where
  to_json : Json

/-- Modelled from the spec: one decoded entry of the `/info/symbols`
response; spec section 3 lists `base`, `quote` and `name` attributes. -/
structure SymbolInfo : Type where
  name : String
  base : String
  quote : String

/-- Modelled from the spec: `Symbol` lives in `models.py`, not under `src/`;
an exchange-assigned market identifier with `base`, `quote` and `name`. -/
structure Symbol : Type where
  name : String
  base : String
  quote : String
  deriving DecidableEq

/-- Modelled from the spec: the pure `Symbol` wire decoder. -/
def Symbol.from_json (info : SymbolInfo) : Symbol := ⟨info.name, info.base, info.quote⟩

/-- Modelled from the spec: `APIError` lives in `client.py`, which is not
under `src/`; spec section 4.4 says it carries the originating operation
label, the HTTP status code and the raw response text. -/
structure APIError : Type where
  operation : String
  status : Nat
  text : String

/-! ## Signed requests (`AsyncAuthorizedClient.__signed_request`). -/

/-- An outgoing authenticated POST: target URL, the exact payload bytes of
the body, and the headers sent with it. -/
structure SignedRequest : Type where
  url : String
  body : List Nat
  headers : List (String × String)

/-- The request `__signed_request` sends: the payload is
`json.dumps(json_data).encode()`, the signature is the hex HMAC-SHA256 of
that same payload under the secret, and the single header is
`X-Api-Signed-Token: token + "," + signature`; the body is that payload. -/
def signed_request (token secret url : String) (json_data : Json) : SignedRequest :=
  let payload := strToBytes (Json.dumps json_data)
  let signature := hmacSha256Hex (strToBytes secret) payload
  { url := url
    body := payload
    headers := [("X-Api-Signed-Token", token ++ "," ++ signature)] }

/-! ## Market cache (`AsyncClient.fetch_markets`).

The cache is the `__market_cache` field (`none` on a fresh client) together
with the `__cache_market` flag fixed at construction.  The network is an
oracle giving the `data['symbol']` field of the `/info/symbols` response,
`none` when that field is JSON null. -/

/-- Decode the market list: `(data['symbol'] or [])` mapped through
`Symbol.from_json`. -/
def decodeMarkets (serverSymbols : Option (List SymbolInfo)) : List Symbol :=
  (serverSymbols.getD []).map Symbol.from_json

/-- One `fetch_markets(force)` call: returns the result, the new
`__market_cache` value and how many network fetches were issued (0 or 1).
A fetch happens when caching is disabled, or `force`, or no cached value
exists; otherwise the cached value is returned unchanged. -/
def fetch_markets (cacheEnabled : Bool) (serverSymbols : Option (List SymbolInfo))
    (force : Bool) (cache : Option (List Symbol)) :
    List Symbol × Option (List Symbol) × Nat :=
  if !cacheEnabled || force || cache.isNone then
    let symbols := decodeMarkets serverSymbols
    (symbols, some symbols, 1)
  else
    (cache.getD [], cache, 0)

/-- A sequence of `n` `fetch_markets` calls on one client, threading the
cache; `server i` is the response the network would give to call `i` and
`forces i` its `force` argument.  Returns the final cache and the total
number of network fetches. -/
def fetchMarketsSeq (cacheEnabled : Bool) (server : Nat → Option (List SymbolInfo))
    (forces : Nat → Bool) : Nat → Option (List Symbol) × Nat
  | 0 => (none, 0)
  | n + 1 =>
      let prev := fetchMarketsSeq cacheEnabled server forces n
      let step := fetch_markets cacheEnabled (server n) (forces n) prev.1
      (step.2.1, prev.2 + step.2.2)

/-! ## Symbol resolution and the per-symbol aggregation generators.

Each authenticated multi-symbol operation is an async generator; its
behaviour is the trace of events it produces in program order.  A consumer
that stops after n entities observes exactly the prefix of the trace ending
at the n-th yield (`takeYields`), because the generator body only runs
between pulls. -/

/-- One observable event of an aggregation generator: the `fetch_markets()`
fallback call, one signed per-symbol POST (endpoint path and the
`symbolName` it carries), or one yielded entity. -/
inductive Ev (α : Type) : Type where
  | marketFetch : Ev α
  | request (endpoint : String) (symbolName : String) : Ev α
  | yield (entity : α) : Ev α

/-- Symbol resolution shared by all multi-symbol operations: if the caller
passed no symbols, fetch the markets and use every symbol name in exchange
order; otherwise use the caller list unchanged. -/
def resolveSymbols (markets : List Symbol) (symbols : List String) : List String :=
  if symbols.isEmpty then markets.map Symbol.name else symbols

/-- The common loop body of `fetch_open_orders`, `fetch_closed_orders` and
`fetch_my_trades`: for each symbol issue one signed request to `endpoint`,
then yield `(response[field] or [])` decoded by `fromWire`, in server
order.  The oracle returns the response collection field, `none` for null. -/
def perSymbolLoop (endpoint : String) (fromWire : Json → α)
    (oracle : String → Option (List Json)) : List String → List (Ev α)
  | [] => []
  | s :: rest =>
      Ev.request endpoint s ::
        (((oracle s).getD []).map (fun j => Ev.yield (fromWire j)) ++
          perSymbolLoop endpoint fromWire oracle rest)

/-- Trace of `fetch_open_orders(*symbols)`: resolve symbols (one
`fetch_markets()` call when none are given), then one request per symbol to
`/user/orders/open`, yielding the decoded `orders` field. -/
def fetch_open_orders (markets : List Symbol) (oracle : String → Option (List Json))
    (symbols : List String) : List (Ev Order) :=
  if symbols.isEmpty then
    Ev.marketFetch ::
      perSymbolLoop "/user/orders/open" Order.from_json oracle (markets.map Symbol.name)
  else
    perSymbolLoop "/user/orders/open" Order.from_json oracle symbols

/-- Trace of `fetch_closed_orders(*symbols)`: same loop against
`/user/orders/complete`. -/
def fetch_closed_orders (markets : List Symbol) (oracle : String → Option (List Json))
    (symbols : List String) : List (Ev Order) :=
  if symbols.isEmpty then
    Ev.marketFetch ::
      perSymbolLoop "/user/orders/complete" Order.from_json oracle (markets.map Symbol.name)
  else
    perSymbolLoop "/user/orders/complete" Order.from_json oracle symbols

/-- Trace of `fetch_my_trades(*symbols)`: same loop against `/user/trades`,
yielding the decoded `trades` field. -/
def fetch_my_trades (markets : List Symbol) (oracle : String → Option (List Json))
    (symbols : List String) : List (Ev Trade) :=
  if symbols.isEmpty then
    Ev.marketFetch ::
      perSymbolLoop "/user/trades" Trade.from_json oracle (markets.map Symbol.name)
  else
    perSymbolLoop "/user/trades" Trade.from_json oracle symbols

/-- The `fetch_orders` loop: per symbol, fully drain
`fetch_open_orders(symbol)` then `fetch_closed_orders(symbol)` (each called
with that single explicit symbol) before moving on. -/
def fetchOrdersLoop (markets : List Symbol)
    (openOracle closedOracle : String → Option (List Json)) : List String → List (Ev Order)
  | [] => []
  | s :: rest =>
      fetch_open_orders markets openOracle [s] ++
        fetch_closed_orders markets closedOracle [s] ++
        fetchOrdersLoop markets openOracle closedOracle rest

/-- Trace of `fetch_orders(*symbols)`: resolve symbols, then the two-phase
per-symbol loop. -/
def fetch_orders (markets : List Symbol)
    (openOracle closedOracle : String → Option (List Json))
    (symbols : List String) : List (Ev Order) :=
  if symbols.isEmpty then
    Ev.marketFetch :: fetchOrdersLoop markets openOracle closedOracle (markets.map Symbol.name)
  else
    fetchOrdersLoop markets openOracle closedOracle symbols

/-! ## Single-order lookup (`fetch_order`) and plain list decoders. -/

/-- Result of `fetch_order(order_id, symbol_name)` as a function of the
signed request outcome: an `APIError` whose text contains `"not found"` is
mapped to `none`, any other error re-raised, and a success response decoded. -/
def fetch_order (response : Except APIError Json) : Except APIError (Option Order) :=
  match response with
  | Except.error err =>
      if "not found".toList <:+: err.text.toList then Except.ok none
      else Except.error err
  | Except.ok data => Except.ok (some (Order.from_json data))

/-- Result of `fetch_balance()` as a function of the decoded `accounts`
field: `(response['accounts'] or [])` mapped through `Account.from_json`. -/
def fetch_balance (accounts : Option (List Json)) : List Account :=
  (accounts.getD []).map Account.from_json

/-- Result of `fetch_ohlcv(...)` as a function of the decoded `ohlc`
field: `(data['ohlc'] or [])` mapped through `Ticker.from_json`. -/
def fetch_ohlcv (ohlc : Option (List Json)) : List Ticker :=
  (ohlc.getD []).map Ticker.from_json

/-- Result of `fetch_trades(...)` as a function of the decoded `trades`
field: `(data['trades'] or [])` mapped through `Trade.from_json`. -/
def fetch_trades (trades : Option (List Json)) : List Trade :=
  (trades.getD []).map Trade.from_json

/-! ## POST request bodies. -/

/-- Body of the `/depths` POST in `fetch_order_book`: `symbolName`, plus
`strLevelAggregation` only when a level aggregation is given. -/
def depths_body (symbol : String) (level_aggregation : Option String) : Json :=
  Json.obj [("req", Json.obj
    (("symbolName", Json.str symbol) ::
      (match level_aggregation with
       | some l => [("strLevelAggregation", Json.str l)]
       | none => [])))]

/-- Body of the `/klines` POST in `fetch_ohlcv`; the times are already
converted to epoch milliseconds. -/
def klines_body (startTimeMs endTimeMs : Int) (symbol : String)
    (resolution : String) (limit : Int) : Json :=
  Json.obj [("req", Json.obj
    [("startTime", Json.num startTimeMs), ("endTime", Json.num endTimeMs),
     ("symbolName", Json.str symbol), ("resolution", Json.str resolution),
     ("limit", Json.num limit)])]

/-- Body of the `/trades` POST in `fetch_trades`. -/
def trades_body (symbol : String) (limit : Int) : Json :=
  Json.obj [("req", Json.obj [("symbolName", Json.str symbol), ("limit", Json.num limit)])]

/-- Body of the `/info/fee/volume` POST in `fetch_volume_fees`. -/
def volume_fees_body (symbol : String) : Json :=
  Json.obj [("req", Json.obj [("symbolName", Json.str symbol)])]

/-- Body of the `/user/orders/open` POST in `fetch_open_orders`. -/
def open_orders_body (limit : Int) (symbol : String) : Json :=
  Json.obj [("req", Json.obj [("limit", Json.num limit), ("symbolName", Json.str symbol)])]

/-- Body of the `/user/orders/complete` POST in `fetch_closed_orders`. -/
def closed_orders_body (limit : Int) (symbol : String) : Json :=
  Json.obj [("req", Json.obj [("limit", Json.num limit), ("symbolName", Json.str symbol)])]

/-- Body of the `/user/trades` POST in `fetch_my_trades`. -/
def my_trades_body (limit : Int) (symbol : String) : Json :=
  Json.obj [("req", Json.obj [("limit", Json.num limit), ("symbolName", Json.str symbol)])]

/-- Body of the `/user/accounts` POST in `fetch_balance`: the literal empty
dict `\x7b\x7d` passed to `__signed_request`. -/
def balance_body : Json := Json.obj []

/-- Body of the `/user/order/cancel` POST in `cancel_order`. -/
def cancel_order_body (order_id : Int) (symbol : String) : Json :=
  Json.obj [("req", Json.obj [("orderId", Json.num order_id), ("symbolName", Json.str symbol)])]

/-- Body of the `/user/order/create` POST in `create_order`. -/
def create_order_body (new_order : NewOrder) : Json :=
  Json.obj [("req", new_order.to_json)]

/-- Body of the `/user/order/info` POST in `fetch_order`. -/
def order_info_body (order_id : Int) (symbol_name : String) : Json :=
  Json.obj [("req", Json.obj
    [("orderId", Json.num order_id), ("symbolName", Json.str symbol_name)])]

/-- Body of the `/user/rates/history` POST in `fetch_history`; the times
are already converted to epoch seconds. -/
def history_body (currency : String) (fromTimestamp toTimestamp : Int) : Json :=
  Json.obj [("req", Json.obj
    [("currency", Json.str currency), ("fromTimestamp", Json.num fromTimestamp),
     ("toTimestamp", Json.num toTimestamp)])]

/-- Whether a JSON body is an object with exactly one top-level key, `req`. -/
def hasSingleTopLevelReqKey : Json → Bool
  | Json.obj [(k, _)] => k == "req"
  | _ => false

/-! ## Trace observers. -/

/-- The per-symbol requests of a trace, in issue order. -/
def requestsOf : List (Ev α) → List (String × String)
  | [] => []
  | Ev.request e s :: rest => (e, s) :: requestsOf rest
  | _ :: rest => requestsOf rest

/-- The entities a trace yields, in order. -/
def yieldsOf : List (Ev α) → List α
  | [] => []
  | Ev.yield x :: rest => x :: yieldsOf rest
  | _ :: rest => yieldsOf rest

/-- How many `fetch_markets()` calls a trace performs. -/
def marketFetchCount : List (Ev α) → Nat
  | [] => 0
  | Ev.marketFetch :: rest => marketFetchCount rest + 1
  | _ :: rest => marketFetchCount rest

/-- The prefix of a trace a consumer observes when it stops after `n`
yielded entities: events up to and including the `n`-th yield.  With `n = 0`
the generator body never runs at all. -/
def takeYields : Nat → List (Ev α) → List (Ev α)
  | _, [] => []
  | 0, _ => []
  | n + 1, Ev.yield x :: rest => Ev.yield x :: takeYields n rest
  | n + 1, Ev.marketFetch :: rest => Ev.marketFetch :: takeYields (n + 1) rest
  | n + 1, Ev.request e s :: rest => Ev.request e s :: takeYields (n + 1) rest

/-- A block of an aggregation trace: one request (endpoint, symbol) and the
entities its response yields. -/
def Block (α : Type) : Type := String × String × List α

/-- The trace a block list denotes: each request followed by its yields. -/
def blocksTrace : List (Block α) → List (Ev α)
  | [] => []
  | b :: rest => Ev.request b.1 b.2.1 :: (b.2.2.map Ev.yield ++ blocksTrace rest)

/-- The block one symbol contributes to a single-phase operation. -/
def opBlock (endpoint : String) (fromWire : Json → α)
    (oracle : String → Option (List Json)) (s : String) : Block α :=
  (endpoint, s, ((oracle s).getD []).map fromWire)

/-- The blocks of a single-phase operation over a symbol list. -/
def opBlocks (endpoint : String) (fromWire : Json → α)
    (oracle : String → Option (List Json)) (syms : List String) : List (Block α) :=
  syms.map (opBlock endpoint fromWire oracle)

/-- The two-phase blocks of `fetch_orders`: per symbol, its open-orders
block then its closed-orders block. -/
def ordersBlocks (openOracle closedOracle : String → Option (List Json))
    (syms : List String) : List (Block Order) :=
  (syms.map (fun s =>
    [opBlock "/user/orders/open" Order.from_json openOracle s,
     opBlock "/user/orders/complete" Order.from_json closedOracle s])).flatten

/-- The optional `fetch_markets()` prefix of an aggregation trace. -/
def mfPfx (symbols : List String) : List (Ev α) :=
  if symbols.isEmpty then [Ev.marketFetch] else []

/-- How many of the blocks a consumer stopping after `n` entities forces:
demand `n` entities; each forced block reduces the outstanding demand by
its entity count, and a new block is forced only while demand remains. -/
def lazyCount : List (Block α) → Nat → Nat
  | _, 0 => 0
  | [], _ => 0
  | b :: rest, n + 1 => lazyCount rest (n + 1 - b.2.2.length) + 1

/-- Total entity count of a block list. -/
def entsSum : List (Block α) → Nat
  | [] => 0
  | b :: rest => b.2.2.length + entsSum rest

/-- Laziness of an aggregation trace with respect to its block list: a
consumer that stops after `n` entities observes exactly the requests of the
first `lazyCount` blocks, and each block it forces is forced only because
the blocks before it supplied strictly fewer than `n` entities. -/
def lazyReqProp (trace : List (Ev α)) (bs : List (Block α)) (n : Nat) : Prop :=
  requestsOf (takeYields n trace) =
    (bs.take (lazyCount bs n)).map (fun b => (b.1, b.2.1)) ∧
  ∀ m, m < lazyCount bs n → entsSum (bs.take m) < n

/-! ## Lemmas about the trace observers. -/

theorem requestsOf_append (t u : List (Ev α)) :
    requestsOf (t ++ u) = requestsOf t ++ requestsOf u := by
  induction t with
  | nil => rfl
  | cons e rest ih => cases e <;> simp [requestsOf, ih]

theorem yieldsOf_append (t u : List (Ev α)) :
    yieldsOf (t ++ u) = yieldsOf t ++ yieldsOf u := by
  induction t with
  | nil => rfl
  | cons e rest ih => cases e <;> simp [yieldsOf, ih]

theorem marketFetchCount_append (t u : List (Ev α)) :
    marketFetchCount (t ++ u) = marketFetchCount t + marketFetchCount u := by
  induction t with
  | nil => simp [marketFetchCount]
  | cons e rest ih =>
      cases e with
      | marketFetch => simp [marketFetchCount, ih]; omega
      | request e s => simp [marketFetchCount, ih]
      | yield x => simp [marketFetchCount, ih]

theorem requestsOf_yieldMap (ys : List α) : requestsOf (ys.map Ev.yield) = [] := by
  induction ys with
  | nil => rfl
  | cons y rest ih => simp [requestsOf, ih]

theorem yieldsOf_yieldMap (ys : List α) : yieldsOf (ys.map Ev.yield) = ys := by
  induction ys with
  | nil => rfl
  | cons y rest ih => simp [yieldsOf, ih]

theorem marketFetchCount_yieldMap (ys : List α) :
    marketFetchCount (ys.map Ev.yield) = 0 := by
  induction ys with
  | nil => rfl
  | cons y rest ih => simp [marketFetchCount, ih]

theorem requestsOf_blocksTrace (bs : List (Block α)) :
    requestsOf (blocksTrace bs) = bs.map (fun b => (b.1, b.2.1)) := by
  induction bs with
  | nil => rfl
  | cons b rest ih =>
      simp [blocksTrace, requestsOf, requestsOf_append, requestsOf_yieldMap, ih]

theorem yieldsOf_blocksTrace (bs : List (Block α)) :
    yieldsOf (blocksTrace bs) = (bs.map (fun b => b.2.2)).flatten := by
  induction bs with
  | nil => rfl
  | cons b rest ih =>
      simp [blocksTrace, yieldsOf, yieldsOf_append, yieldsOf_yieldMap, ih]

theorem marketFetchCount_blocksTrace (bs : List (Block α)) :
    marketFetchCount (blocksTrace bs) = 0 := by
  induction bs with
  | nil => rfl
  | cons b rest ih =>
      simp [blocksTrace, marketFetchCount, marketFetchCount_append,
        marketFetchCount_yieldMap, ih]

theorem blocksTrace_append (as bs : List (Block α)) :
    blocksTrace (as ++ bs) = blocksTrace as ++ blocksTrace bs := by
  induction as with
  | nil => rfl
  | cons a rest ih => simp [blocksTrace, ih]

/-! ## Lemmas relating the generators to their block decompositions. -/

theorem perSymbolLoop_eq_blocksTrace (endpoint : String) (fromWire : Json → α)
    (oracle : String → Option (List Json)) (syms : List String) :
    perSymbolLoop endpoint fromWire oracle syms =
      blocksTrace (opBlocks endpoint fromWire oracle syms) := by
  induction syms with
  | nil => rfl
  | cons s rest ih =>
      simp [perSymbolLoop, opBlocks, opBlock, blocksTrace, ih, List.map_map]

theorem fetch_open_orders_trace (markets : List Symbol)
    (oracle : String → Option (List Json)) (symbols : List String) :
    fetch_open_orders markets oracle symbols =
      mfPfx symbols ++ blocksTrace (opBlocks "/user/orders/open" Order.from_json oracle
        (resolveSymbols markets symbols)) := by
  cases symbols <;>
    simp [fetch_open_orders, resolveSymbols, mfPfx, perSymbolLoop_eq_blocksTrace]

theorem fetch_closed_orders_trace (markets : List Symbol)
    (oracle : String → Option (List Json)) (symbols : List String) :
    fetch_closed_orders markets oracle symbols =
      mfPfx symbols ++ blocksTrace (opBlocks "/user/orders/complete" Order.from_json oracle
        (resolveSymbols markets symbols)) := by
  cases symbols <;>
    simp [fetch_closed_orders, resolveSymbols, mfPfx, perSymbolLoop_eq_blocksTrace]

theorem fetch_my_trades_trace (markets : List Symbol)
    (oracle : String → Option (List Json)) (symbols : List String) :
    fetch_my_trades markets oracle symbols =
      mfPfx symbols ++ blocksTrace (opBlocks "/user/trades" Trade.from_json oracle
        (resolveSymbols markets symbols)) := by
  cases symbols <;>
    simp [fetch_my_trades, resolveSymbols, mfPfx, perSymbolLoop_eq_blocksTrace]

theorem ordersBlocks_cons (openOracle closedOracle : String → Option (List Json))
    (s : String) (rest : List String) :
    ordersBlocks openOracle closedOracle (s :: rest) =
      opBlock "/user/orders/open" Order.from_json openOracle s ::
        opBlock "/user/orders/complete" Order.from_json closedOracle s ::
        ordersBlocks openOracle closedOracle rest := by
  simp [ordersBlocks]

theorem fetchOrdersLoop_eq_blocksTrace (markets : List Symbol)
    (openOracle closedOracle : String → Option (List Json)) (syms : List String) :
    fetchOrdersLoop markets openOracle closedOracle syms =
      blocksTrace (ordersBlocks openOracle closedOracle syms) := by
  induction syms with
  | nil => rfl
  | cons s rest ih =>
      rw [fetchOrdersLoop, ordersBlocks_cons, ih]
      simp [fetch_open_orders, fetch_closed_orders, perSymbolLoop_eq_blocksTrace,
        opBlocks, blocksTrace]

theorem fetch_orders_trace (markets : List Symbol)
    (openOracle closedOracle : String → Option (List Json)) (symbols : List String) :
    fetch_orders markets openOracle closedOracle symbols =
      mfPfx symbols ++
        blocksTrace (ordersBlocks openOracle closedOracle (resolveSymbols markets symbols)) := by
  cases symbols <;>
    simp [fetch_orders, resolveSymbols, mfPfx, fetchOrdersLoop_eq_blocksTrace]

/-! ## Lemmas about lazy consumption. -/

theorem takeYields_zero (t : List (Ev α)) : takeYields 0 t = [] := by
  cases t <;> rfl

theorem lazyCount_zero (bs : List (Block α)) : lazyCount bs 0 = 0 := by
  cases bs <;> rfl

theorem lazyCount_nil {α : Type} (n : Nat) : lazyCount ([] : List (Block α)) n = 0 := by
  cases n <;> rfl

theorem requestsOf_takeYields_yieldMap (ys : List α) (t : List (Ev α)) (k : Nat) :
    requestsOf (takeYields k (ys.map Ev.yield ++ t)) =
      if ys.length < k then requestsOf (takeYields (k - ys.length) t) else [] := by
  induction ys generalizing k with
  | nil =>
      cases k with
      | zero => simp [takeYields_zero, requestsOf]
      | succ k => simp
  | cons y rest ih =>
      cases k with
      | zero => simp [takeYields_zero, requestsOf]
      | succ k =>
          have h0 : requestsOf (takeYields (k + 1) ((y :: rest).map Ev.yield ++ t)) =
              requestsOf (takeYields k (rest.map Ev.yield ++ t)) := rfl
          rw [h0, ih]
          simp [Nat.succ_sub_succ, Nat.succ_lt_succ_iff]

theorem requestsOf_takeYields_blocksTrace (bs : List (Block α)) (n : Nat) :
    requestsOf (takeYields n (blocksTrace bs)) =
      (bs.take (lazyCount bs n)).map (fun b => (b.1, b.2.1)) := by
  induction bs generalizing n with
  | nil => simp [blocksTrace, takeYields, lazyCount_nil, requestsOf]
  | cons b rest ih =>
      cases n with
      | zero => simp [takeYields_zero, lazyCount_zero, requestsOf]
      | succ n =>
          rw [blocksTrace]
          rw [show takeYields (n + 1) (Ev.request b.1 b.2.1 ::
            (b.2.2.map Ev.yield ++ blocksTrace rest)) = Ev.request b.1 b.2.1 ::
            takeYields (n + 1) (b.2.2.map Ev.yield ++ blocksTrace rest) from rfl]
          rw [show requestsOf (Ev.request b.1 b.2.1 ::
            takeYields (n + 1) (b.2.2.map Ev.yield ++ blocksTrace rest)) = (b.1, b.2.1) ::
            requestsOf (takeYields (n + 1) (b.2.2.map Ev.yield ++ blocksTrace rest)) from rfl]
          rw [requestsOf_takeYields_yieldMap]
          by_cases h : b.2.2.length < n + 1
          · rw [if_pos h, ih]
            simp [lazyCount]
          · rw [if_neg h]
            have hz : n + 1 - b.2.2.length = 0 := by omega
            simp [lazyCount, hz, lazyCount_zero]

theorem entsSum_take_lt (bs : List (Block α)) (n m : Nat) (h : m < lazyCount bs n) :
    entsSum (bs.take m) < n := by
  induction bs generalizing n m with
  | nil => rw [lazyCount_nil] at h; omega
  | cons b rest ih =>
      cases n with
      | zero => rw [lazyCount_zero] at h; omega
      | succ n =>
          cases m with
          | zero =>
              simp [entsSum]
          | succ m =>
              have h2 : m < lazyCount rest (n + 1 - b.2.2.length) := by
                simp only [lazyCount] at h
                omega
              have h3 := ih (n + 1 - b.2.2.length) m h2
              have h4 : 0 < n + 1 - b.2.2.length := by
                by_contra h5
                have h6 : n + 1 - b.2.2.length = 0 := by omega
                rw [h6, lazyCount_zero] at h2
                omega
              simp only [List.take_succ_cons, entsSum]
              omega

theorem requestsOf_mfPfx {α : Type} (symbols : List String) :
    requestsOf (mfPfx symbols : List (Ev α)) = [] := by
  cases symbols <;> rfl

theorem yieldsOf_mfPfx {α : Type} (symbols : List String) :
    yieldsOf (mfPfx symbols : List (Ev α)) = [] := by
  cases symbols <;> rfl

theorem marketFetchCount_mfPfx {α : Type} (symbols : List String) :
    marketFetchCount (mfPfx symbols : List (Ev α)) =
      if symbols.isEmpty then 1 else 0 := by
  cases symbols <;> rfl

theorem flatten_map_nil {β γ : Type} (xs : List β) :
    (xs.map (fun _ => ([] : List γ))).flatten = [] := by
  induction xs with
  | nil => rfl
  | cons x rest ih => simp [ih]

theorem requestsOf_takeYields_mf (t : List (Ev α)) (n : Nat) :
    requestsOf (takeYields n (Ev.marketFetch :: t)) =
      requestsOf (takeYields n t) := by
  cases n with
  | zero => simp [takeYields_zero]
  | succ n => simp [takeYields, requestsOf]

theorem lazyReqProp_mfPfx_blocks (symbols : List String) (bs : List (Block α)) (n : Nat) :
    lazyReqProp (mfPfx symbols ++ blocksTrace bs) bs n := by
  constructor
  · cases symbols <;>
      simp [mfPfx, requestsOf_takeYields_mf, requestsOf_takeYields_blocksTrace]
  · intro m hm
    exact entsSum_take_lt bs n m hm

theorem ordersBlocks_yields (openOracle closedOracle : String → Option (List Json))
    (syms : List String) :
    ((ordersBlocks openOracle closedOracle syms).map (fun b => b.2.2)).flatten =
      (syms.map (fun s => ((openOracle s).getD []).map Order.from_json ++
        ((closedOracle s).getD []).map Order.from_json)).flatten := by
  induction syms with
  | nil => rfl
  | cons s rest ih =>
      rw [ordersBlocks_cons]
      simp [opBlock, ih]

/-! ## The claims. -/

set_option maxRecDepth 1000000

/-- C1: every authenticated operation goes through `__signed_request`, which
sends the header `X-Api-Signed-Token` whose value is `token + "," +` the
lowercase hex HMAC-SHA256 digest of the exact payload bytes transmitted as
the request body (the very same byte string is signed and sent); the
signature is deterministic in `(secret, payload)`; and signing the payload
bytes of the ten ASCII characters `\x7b"req":\x7b\x7d\x7d` with secret
`s3cr3t` yields the standard HMAC-SHA256 reference digest for those bytes. -/
theorem claim_C1 (token secret url : String) (json_data : Json) :
    (signed_request token secret url json_data).headers =
      [("X-Api-Signed-Token",
        token ++ "," ++ hmacSha256Hex (strToBytes secret)
          ((signed_request token secret url json_data).body))] ∧
    (∀ s p s2 p2 : List Nat, s = s2 → p = p2 → hmacSha256Hex s p = hmacSha256Hex s2 p2) ∧
    hmacSha256Hex (strToBytes "s3cr3t") (strToBytes "\x7b\"req\":\x7b\x7d\x7d") =
      "0470f945c6e8a121314ac0bb4ce467bc269b4947ebbad957797fd461acf2bf62" := by
  refine ⟨rfl, ?_, ?_⟩
  · intro s p s2 p2 hs hp
    rw [hs, hp]
  · decide

/-- Witness for C1 at concrete inputs: the determinism hypotheses are
discharged by reflexivity. -/
theorem claim_C1_witness :
    hmacSha256Hex [0] [1] = hmacSha256Hex [0] [1] :=
  (claim_C1 "token" "secret" "url" Json.null).2.1 [0] [1] [0] [1] rfl rfl

/-- C4: `fetch_order` returns an absent result exactly when the signed
request raises an `APIError` whose text contains the substring
`"not found"`; any other error propagates unchanged, and a success
response is decoded to an order. -/
theorem claim_C4 (response : Except APIError Json) :
    (fetch_order response = Except.ok none ↔
      ∃ err : APIError, response = Except.error err ∧
        "not found".toList <:+: err.text.toList) ∧
    (∀ err : APIError, response = Except.error err →
      ¬ "not found".toList <:+: err.text.toList →
      fetch_order response = Except.error err) ∧
    (∀ data : Json, response = Except.ok data →
      fetch_order response = Except.ok (some (Order.from_json data))) := by
  refine ⟨?_, ?_, ?_⟩
  · constructor
    · intro h
      cases response with
      | ok data => simp [fetch_order] at h
      | error err =>
          by_cases hc : "not found".toList <:+: err.text.toList
          · exact ⟨err, rfl, hc⟩
          · rw [fetch_order, if_neg hc] at h
            exact absurd h (by simp)
    · rintro ⟨err, rfl, hc⟩
      rw [fetch_order, if_pos hc]
  · rintro err rfl hnc
    rw [fetch_order, if_neg hnc]
  · rintro data rfl
    rfl

/-- Witness for C4: a 404 whose text contains "not found" maps to an absent
result. -/
theorem claim_C4_witness :
    fetch_order (Except.error ⟨"fetch-order", 404, "order not found"⟩) =
      Except.ok none :=
  (claim_C4 (Except.error ⟨"fetch-order", 404, "order not found"⟩)).1.mpr
    ⟨⟨"fetch-order", 404, "order not found"⟩, rfl, by decide⟩

/-- Helper for C5: with caching enabled and no force-refresh, after any
positive number of sequential calls the cache holds the first fetch result
and exactly one network fetch happened in total. -/
theorem fetchMarketsSeq_cached (server : Nat → Option (List SymbolInfo)) (n : Nat)
    (h : 1 ≤ n) :
    fetchMarketsSeq true server (fun _ => false) n =
      (some (decodeMarkets (server 0)), 1) := by
  induction n with
  | zero => omega
  | succ n ih =>
      cases n with
      | zero => simp [fetchMarketsSeq, fetch_markets]
      | succ m =>
          rw [fetchMarketsSeq, ih (by omega)]
          simp [fetch_markets]

/-- C5: a `fetch_markets` call fetches, replaces the cache and returns the
fresh decode exactly when caching is disabled, or force is set, or no
cached value exists; otherwise it returns the cached value with no fetch.
Hence with caching enabled and force always false, any positive number of
sequential calls on a fresh client issues exactly one network fetch, and a
forced call always fetches. -/
theorem claim_C5 (cacheEnabled : Bool) (serverSymbols : Option (List SymbolInfo))
    (force : Bool) (cache : Option (List Symbol)) :
    ((cacheEnabled = false ∨ force = true ∨ cache = none) →
      fetch_markets cacheEnabled serverSymbols force cache =
        (decodeMarkets serverSymbols, some (decodeMarkets serverSymbols), 1)) ∧
    (∀ v : List Symbol,
      fetch_markets true serverSymbols false (some v) = (v, some v, 0)) ∧
    (fetch_markets cacheEnabled serverSymbols true cache).2.2 = 1 ∧
    (∀ (server : Nat → Option (List SymbolInfo)) (n : Nat), 1 ≤ n →
      (fetchMarketsSeq true server (fun _ => false) n).2 = 1) := by
  refine ⟨?_, ?_, ?_, ?_⟩
  · rintro (rfl | rfl | rfl) <;> simp [fetch_markets]
  · intro v
    simp [fetch_markets]
  · cases cache <;> cases cacheEnabled <;> simp [fetch_markets]
  · intro server n hn
    rw [fetchMarketsSeq_cached server n hn]

/-- Witness for C5: one disabled-cache call fetches, and three sequential
cached calls issue exactly one fetch. -/
theorem claim_C5_witness :
    fetch_markets false none false none = (decodeMarkets none, some (decodeMarkets none), 1) ∧
    (fetchMarketsSeq true (fun _ => none) (fun _ => false) 3).2 = 1 :=
  ⟨(claim_C5 false none false none).1 (Or.inl rfl),
   (claim_C5 true none false none).2.2.2 (fun _ => none) 3 (by omega)⟩

/-- C7 as stated is false: with caching disabled, a single `fetch_markets`
call leaves `__market_cache` set to the fetched tuple, not unset. -/
theorem claim_C7_counterexample :
    (fetchMarketsSeq false (fun _ => some []) (fun _ => false) 1).1 ≠ none := by
  decide

/-- C7 amended: with caching disabled every `fetch_markets` call bypasses
the cache — it always performs a network fetch, and both its result and its
fetch count are independent of the stored cache value, so the client is
behaviorally stateless with respect to market metadata; the stored cache
value is however overwritten with each fetch result (set, never read),
rather than remaining unset. -/
theorem claim_C7 (serverSymbols : Option (List SymbolInfo)) (force : Bool)
    (cache cache2 : Option (List Symbol)) :
    fetch_markets false serverSymbols force cache =
      (decodeMarkets serverSymbols, some (decodeMarkets serverSymbols), 1) ∧
    fetch_markets false serverSymbols force cache =
      fetch_markets false serverSymbols force cache2 := by
  constructor <;> simp [fetch_markets]

/-- C9 as stated is false: `fetch_balance` posts the empty JSON object,
which has no top-level `req` key at all. -/
theorem claim_C9_counterexample :
    hasSingleTopLevelReqKey balance_body = false := rfl

/-- C9 amended: the serialized request body of every POST endpoint of the
client wraps the parameters of the operation under a single top-level `req`
key — except `fetch_balance`, which has no parameters and posts the empty
JSON object with no `req` key. -/
theorem claim_C9 (symbol currency resolution : String)
    (level_aggregation : Option String)
    (startMs endMs limit order_id fromTs toTs : Int) (new_order : NewOrder) :
    hasSingleTopLevelReqKey (depths_body symbol level_aggregation) = true ∧
    hasSingleTopLevelReqKey (klines_body startMs endMs symbol resolution limit) = true ∧
    hasSingleTopLevelReqKey (trades_body symbol limit) = true ∧
    hasSingleTopLevelReqKey (volume_fees_body symbol) = true ∧
    hasSingleTopLevelReqKey (open_orders_body limit symbol) = true ∧
    hasSingleTopLevelReqKey (closed_orders_body limit symbol) = true ∧
    hasSingleTopLevelReqKey (my_trades_body limit symbol) = true ∧
    hasSingleTopLevelReqKey (cancel_order_body order_id symbol) = true ∧
    hasSingleTopLevelReqKey (create_order_body new_order) = true ∧
    hasSingleTopLevelReqKey (order_info_body order_id symbol) = true ∧
    hasSingleTopLevelReqKey (history_body currency fromTs toTs) = true ∧
    balance_body = Json.obj [] := by
  refine ⟨?_, rfl, rfl, rfl, rfl, rfl, rfl, rfl, rfl, rfl, rfl, rfl⟩
  cases level_aggregation <;> rfl

/-- C10: every list-producing operation maps a null collection field of a
successfully decoded response to an empty result instead of an error:
`fetch_markets` over a null `symbol` field, `fetch_ohlcv` over null `ohlc`,
`fetch_trades` over null `trades`, the three aggregation generators over
all-null responses, and `fetch_balance` over null `accounts`. -/
theorem claim_C10 (cacheEnabled force : Bool) (markets : List Symbol)
    (symbols : List String) :
    (fetch_markets cacheEnabled none force none).1 = [] ∧
    fetch_ohlcv none = [] ∧
    fetch_trades none = [] ∧
    yieldsOf (fetch_open_orders markets (fun _ => none) symbols) = [] ∧
    yieldsOf (fetch_closed_orders markets (fun _ => none) symbols) = [] ∧
    yieldsOf (fetch_my_trades markets (fun _ => none) symbols) = [] ∧
    fetch_balance none = [] := by
  refine ⟨?_, rfl, rfl, ?_, ?_, ?_, rfl⟩
  · cases cacheEnabled <;> cases force <;> simp [fetch_markets, decodeMarkets]
  · rw [fetch_open_orders_trace, yieldsOf_append, yieldsOf_mfPfx, yieldsOf_blocksTrace]
    simp [opBlocks, opBlock, List.map_map, Function.comp_def, flatten_map_nil]
  · rw [fetch_closed_orders_trace, yieldsOf_append, yieldsOf_mfPfx, yieldsOf_blocksTrace]
    simp [opBlocks, opBlock, List.map_map, Function.comp_def, flatten_map_nil]
  · rw [fetch_my_trades_trace, yieldsOf_append, yieldsOf_mfPfx, yieldsOf_blocksTrace]
    simp [opBlocks, opBlock, List.map_map, Function.comp_def, flatten_map_nil]

/-- C2: for every resolved symbol sequence, each of `fetch_open_orders`,
`fetch_closed_orders` and `fetch_my_trades` issues one request per resolved
symbol, sequentially in resolved-symbol order; the whole trace decomposes
into consecutive request-then-yields blocks, one per resolved symbol, so
all entities decoded from the response of symbol i are yielded before any
entity of symbol i+1, each response in server order, with no inter-symbol
reordering or merging. -/
theorem claim_C2 (markets : List Symbol)
    (openOracle closedOracle tradesOracle : String → Option (List Json))
    (symbols : List String) :
    (fetch_open_orders markets openOracle symbols =
        mfPfx symbols ++ blocksTrace (opBlocks "/user/orders/open" Order.from_json
          openOracle (resolveSymbols markets symbols)) ∧
      requestsOf (fetch_open_orders markets openOracle symbols) =
        (resolveSymbols markets symbols).map (fun s => ("/user/orders/open", s)) ∧
      yieldsOf (fetch_open_orders markets openOracle symbols) =
        ((resolveSymbols markets symbols).map
          (fun s => ((openOracle s).getD []).map Order.from_json)).flatten) ∧
    (fetch_closed_orders markets closedOracle symbols =
        mfPfx symbols ++ blocksTrace (opBlocks "/user/orders/complete" Order.from_json
          closedOracle (resolveSymbols markets symbols)) ∧
      requestsOf (fetch_closed_orders markets closedOracle symbols) =
        (resolveSymbols markets symbols).map (fun s => ("/user/orders/complete", s)) ∧
      yieldsOf (fetch_closed_orders markets closedOracle symbols) =
        ((resolveSymbols markets symbols).map
          (fun s => ((closedOracle s).getD []).map Order.from_json)).flatten) ∧
    (fetch_my_trades markets tradesOracle symbols =
        mfPfx symbols ++ blocksTrace (opBlocks "/user/trades" Trade.from_json
          tradesOracle (resolveSymbols markets symbols)) ∧
      requestsOf (fetch_my_trades markets tradesOracle symbols) =
        (resolveSymbols markets symbols).map (fun s => ("/user/trades", s)) ∧
      yieldsOf (fetch_my_trades markets tradesOracle symbols) =
        ((resolveSymbols markets symbols).map
          (fun s => ((tradesOracle s).getD []).map Trade.from_json)).flatten) := by
  refine ⟨⟨fetch_open_orders_trace markets openOracle symbols, ?_, ?_⟩,
    ⟨fetch_closed_orders_trace markets closedOracle symbols, ?_, ?_⟩,
    ⟨fetch_my_trades_trace markets tradesOracle symbols, ?_, ?_⟩⟩
  · rw [fetch_open_orders_trace, requestsOf_append, requestsOf_mfPfx,
      requestsOf_blocksTrace]
    simp [opBlocks, opBlock, List.map_map, Function.comp_def]
  · rw [fetch_open_orders_trace, yieldsOf_append, yieldsOf_mfPfx, yieldsOf_blocksTrace]
    simp [opBlocks, opBlock, List.map_map, Function.comp_def]
  · rw [fetch_closed_orders_trace, requestsOf_append, requestsOf_mfPfx,
      requestsOf_blocksTrace]
    simp [opBlocks, opBlock, List.map_map, Function.comp_def]
  · rw [fetch_closed_orders_trace, yieldsOf_append, yieldsOf_mfPfx, yieldsOf_blocksTrace]
    simp [opBlocks, opBlock, List.map_map, Function.comp_def]
  · rw [fetch_my_trades_trace, requestsOf_append, requestsOf_mfPfx,
      requestsOf_blocksTrace]
    simp [opBlocks, opBlock, List.map_map, Function.comp_def]
  · rw [fetch_my_trades_trace, yieldsOf_append, yieldsOf_mfPfx, yieldsOf_blocksTrace]
    simp [opBlocks, opBlock, List.map_map, Function.comp_def]

/-- C3: for every resolved symbol sequence, the `fetch_orders` trace is,
per symbol in order: the open-orders request and all its entities, then the
closed-orders request and all its entities, then the next symbol — so each
symbol is fully drained of open orders strictly before its closed orders,
and both phases finish before the next symbol starts; the yielded sequence
is the per-symbol concatenation open-then-closed. -/
theorem claim_C3 (markets : List Symbol)
    (openOracle closedOracle : String → Option (List Json)) (symbols : List String) :
    fetch_orders markets openOracle closedOracle symbols =
      mfPfx symbols ++ blocksTrace (ordersBlocks openOracle closedOracle
        (resolveSymbols markets symbols)) ∧
    yieldsOf (fetch_orders markets openOracle closedOracle symbols) =
      ((resolveSymbols markets symbols).map (fun s =>
        ((openOracle s).getD []).map Order.from_json ++
          ((closedOracle s).getD []).map Order.from_json)).flatten := by
  refine ⟨fetch_orders_trace markets openOracle closedOracle symbols, ?_⟩
  rw [fetch_orders_trace, yieldsOf_append, yieldsOf_mfPfx, yieldsOf_blocksTrace,
    ordersBlocks_yields]
  rfl

/-- C6: if the caller passes a non-empty explicit symbol list, every
multi-symbol operation uses it unchanged — caller order and duplicates
preserved, no deduplication — and triggers no `fetch_markets` call; if the
list is empty, exactly one `fetch_markets` call happens and the symbol
names are used in the order the exchange returned them. -/
theorem claim_C6 (markets : List Symbol)
    (openOracle closedOracle tradesOracle : String → Option (List Json))
    (symbols : List String) :
    (symbols ≠ [] →
      resolveSymbols markets symbols = symbols ∧
      marketFetchCount (fetch_open_orders markets openOracle symbols) = 0 ∧
      marketFetchCount (fetch_closed_orders markets closedOracle symbols) = 0 ∧
      marketFetchCount (fetch_my_trades markets tradesOracle symbols) = 0 ∧
      marketFetchCount (fetch_orders markets openOracle closedOracle symbols) = 0 ∧
      requestsOf (fetch_open_orders markets openOracle symbols) =
        symbols.map (fun s => ("/user/orders/open", s))) ∧
    (resolveSymbols markets [] = markets.map Symbol.name ∧
      marketFetchCount (fetch_open_orders markets openOracle []) = 1 ∧
      marketFetchCount (fetch_closed_orders markets closedOracle []) = 1 ∧
      marketFetchCount (fetch_my_trades markets tradesOracle []) = 1 ∧
      marketFetchCount (fetch_orders markets openOracle closedOracle []) = 1 ∧
      requestsOf (fetch_open_orders markets openOracle []) =
        (markets.map Symbol.name).map (fun s => ("/user/orders/open", s))) := by
  constructor
  · intro h
    cases symbols with
    | nil => exact absurd rfl h
    | cons s rest =>
        refine ⟨by simp [resolveSymbols], ?_, ?_, ?_, ?_, ?_⟩
        · rw [fetch_open_orders_trace, marketFetchCount_append, marketFetchCount_mfPfx,
            marketFetchCount_blocksTrace]
          simp
        · rw [fetch_closed_orders_trace, marketFetchCount_append, marketFetchCount_mfPfx,
            marketFetchCount_blocksTrace]
          simp
        · rw [fetch_my_trades_trace, marketFetchCount_append, marketFetchCount_mfPfx,
            marketFetchCount_blocksTrace]
          simp
        · rw [fetch_orders_trace, marketFetchCount_append, marketFetchCount_mfPfx,
            marketFetchCount_blocksTrace]
          simp
        · rw [fetch_open_orders_trace, requestsOf_append, requestsOf_mfPfx,
            requestsOf_blocksTrace]
          simp [opBlocks, opBlock, List.map_map, Function.comp_def, resolveSymbols]
  · refine ⟨by simp [resolveSymbols], ?_, ?_, ?_, ?_, ?_⟩
    · rw [fetch_open_orders_trace, marketFetchCount_append, marketFetchCount_mfPfx,
        marketFetchCount_blocksTrace]
      simp
    · rw [fetch_closed_orders_trace, marketFetchCount_append, marketFetchCount_mfPfx,
        marketFetchCount_blocksTrace]
      simp
    · rw [fetch_my_trades_trace, marketFetchCount_append, marketFetchCount_mfPfx,
        marketFetchCount_blocksTrace]
      simp
    · rw [fetch_orders_trace, marketFetchCount_append, marketFetchCount_mfPfx,
        marketFetchCount_blocksTrace]
      simp
    · rw [fetch_open_orders_trace, requestsOf_append, requestsOf_mfPfx,
        requestsOf_blocksTrace]
      simp [opBlocks, opBlock, List.map_map, Function.comp_def, resolveSymbols]

/-- Witness for C6: a duplicated explicit list is used unchanged. -/
theorem claim_C6_witness :
    resolveSymbols [] ["BTCUSD", "BTCUSD"] = ["BTCUSD", "BTCUSD"] :=
  ((claim_C6 [] (fun _ => none) (fun _ => none) (fun _ => none)
    ["BTCUSD", "BTCUSD"]).1 (by simp)).1

/-- C8: the four aggregated sequences are lazy — a consumer that stops
after the first n entities observes exactly the requests of the leading
blocks forced by that demand, and each such request was issued only
because the responses before it supplied strictly fewer than n entities;
no request for a later symbol or phase is ever triggered. -/
theorem claim_C8 (markets : List Symbol)
    (openOracle closedOracle tradesOracle : String → Option (List Json))
    (symbols : List String) (n : Nat) :
    lazyReqProp (fetch_open_orders markets openOracle symbols)
      (opBlocks "/user/orders/open" Order.from_json openOracle
        (resolveSymbols markets symbols)) n ∧
    lazyReqProp (fetch_closed_orders markets closedOracle symbols)
      (opBlocks "/user/orders/complete" Order.from_json closedOracle
        (resolveSymbols markets symbols)) n ∧
    lazyReqProp (fetch_my_trades markets tradesOracle symbols)
      (opBlocks "/user/trades" Trade.from_json tradesOracle
        (resolveSymbols markets symbols)) n ∧
    lazyReqProp (fetch_orders markets openOracle closedOracle symbols)
      (ordersBlocks openOracle closedOracle (resolveSymbols markets symbols)) n := by
  refine ⟨?_, ?_, ?_, ?_⟩
  · rw [fetch_open_orders_trace]
    exact lazyReqProp_mfPfx_blocks symbols _ n
  · rw [fetch_closed_orders_trace]
    exact lazyReqProp_mfPfx_blocks symbols _ n
  · rw [fetch_my_trades_trace]
    exact lazyReqProp_mfPfx_blocks symbols _ n
  · rw [fetch_orders_trace]
    exact lazyReqProp_mfPfx_blocks symbols _ n

/-- Witness for C8: demanding one entity from two one-entity symbols forces
only the first block, whose predecessors supplied fewer than one entity. -/
theorem claim_C8_witness :
    entsSum ((opBlocks "/user/orders/open" Order.from_json
      (fun _ => some [Json.null]) (resolveSymbols [] ["A", "B"])).take 0) < 1 :=
  And.right ((claim_C8 [] (fun _ => some [Json.null]) (fun _ => none) (fun _ => none)
    ["A", "B"] 1).1) 0 (by decide)

end Crix
